import Mathlib

/-!
# Proof packaging pipeline of `ultrahonk_soroban_contract`, shallowly embedded

This file embeds, as executable Lean definitions, the core byte-level
encoding pipeline of the repository:

* the public-input field encoder `encodePublicInputs` of
  `src/services/NoirService.ts` (the same code is duplicated verbatim in
  `test_real_proof.js`), together with its inner helper `encodeField`;
* the blob assembler `buildProofBlob` of the same file (header, blob
  concatenation, and the hex-rendered keccak-256 proof identifier);
* the keccak-256 hash exactly as used by the code (the `keccak_256`
  export of `@noble/hashes/sha3`, i.e. original Keccak `pad10*1` padding
  with domain byte `0x01`, rate 1088 / capacity 512, 32-byte digest);
* the *inlined* public-input encoding of the frontend variant's
  `NoirService.generateProof` (`src/unnamed/part_002`), which dispatches
  only on the `integer` and `field` kinds.

Bytes are modelled as `Nat` (always `< 256` where the source guarantees a
`Uint8Array`); JavaScript `BigInt` values are modelled as `Nat` (the code
paths under study only ever receive non-negative values).  Machine
truncation (`setUint32`, byte masking with `& 0xff`) is made explicit with
`% 2 ^ 32` and `% 256`.
-/

/-! ## Byte-level helpers -/

/-- Big-endian bytes written into a fresh 32-byte zero buffer, mirroring the
loop `for (i = 0; i < numBytes; i++) field[31 - i] = val & 0xff; val >>= 8`
in `encodeField`.  Position `j` receives byte `value >> 8*(31-j)` when the
loop reaches it (`j ≥ 32 - numBytes`), and stays `0` otherwise.  Writes past
the start of the buffer (`numBytes > 32`) are discarded, exactly as a
`Uint8Array` ignores negative indices. -/
def byteWrite (value numBytes : Nat) : List Nat :=
  (List.range 32).map (fun j =>
    if 32 - numBytes ≤ j then value / 256 ^ (31 - j) % 256 else 0)

/-- Big-endian rendering of `v` in exactly `n` bytes (specification-side
helper used to state what the low bytes of an encoded field contain). -/
def beBytes (v n : Nat) : List Nat :=
  (List.range n).map (fun i => v / 256 ^ (n - 1 - i) % 256)

/-- Big-endian decoding of a byte list (specification-side helper). -/
def beDecode (bs : List Nat) : Nat :=
  bs.foldl (fun a b => a * 256 + b) 0

/-- The 4 header bytes produced by `view.setUint32(0, totalFields, false)`:
big-endian, after JavaScript's `ToUint32` truncation (`% 2 ^ 32`). -/
def u32be (n : Nat) : List Nat :=
  [n % 2 ^ 32 / 2 ^ 24 % 256, n % 2 ^ 32 / 2 ^ 16 % 256,
   n % 2 ^ 32 / 2 ^ 8 % 256, n % 2 ^ 32 % 256]

/-- One lowercase hexadecimal digit, as produced by `Number.toString(16)`. -/
def hexDigit (n : Nat) : Char :=
  if n < 10 then Char.ofNat (48 + n) else Char.ofNat (87 + n)

/-- The two characters of `b.toString(16).padStart(2, '0')` for a byte
`b < 256`. -/
def byteToHexChars (b : Nat) : List Char :=
  [hexDigit (b / 16 % 16), hexDigit (b % 16)]

/-- `Array.from(bytes).map(b => b.toString(16).padStart(2, '0')).join('')`. -/
def bytesToHex (bs : List Nat) : String :=
  String.mk (bs.flatMap byteToHexChars)

/-! ## Keccak-256

The repository does not implement the hash itself; it imports `keccak_256`
from `@noble/hashes/sha3`.  We embed that external function: Keccak-f[1600]
with rate 136 bytes, original Keccak multi-rate padding (domain byte `0x01`,
final bit `0x80`), 32-byte output.  Lanes are 64-bit words modelled as `Nat`
reduced modulo `2 ^ 64`; the state is the usual flat list of 25 lanes with
lane (x, y) at index `x + 5 * y`. -/

/-- 64-bit left rotation. -/
def rotl64 (x n : Nat) : Nat :=
  (x <<< (n % 64) ||| x >>> (64 - n % 64)) % 2 ^ 64

/-- Lane (x, y) of a Keccak state (coordinates taken mod 5). -/
def lane (s : List Nat) (x y : Nat) : Nat :=
  s.getD (x % 5 + 5 * (y % 5)) 0

/-- Keccak θ step. -/
def theta (s : List Nat) : List Nat :=
  let c := fun x =>
    lane s x 0 ^^^ lane s x 1 ^^^ lane s x 2 ^^^ lane s x 3 ^^^ lane s x 4
  let d := fun x => c ((x + 4) % 5) ^^^ rotl64 (c ((x + 1) % 5)) 1
  (List.range 25).map (fun i => s.getD i 0 ^^^ d (i % 5))

/-- Rotation offsets of the ρ step, row `y`, column `x`. -/
def rhoTable : List (List Nat) :=
  [[0, 1, 62, 28, 27],
   [36, 44, 6, 55, 20],
   [3, 10, 43, 25, 39],
   [41, 45, 15, 21, 8],
   [18, 2, 61, 56, 14]]

/-- Rotation offset of the ρ step for the lane at flat index `x + 5 * y`. -/
def rhoOffsets (i : Nat) : Nat :=
  (rhoTable.getD (i / 5) []).getD (i % 5) 0

/-- Combined ρ and π steps: output lane (X, Y) is the rotated input lane
`(X + 3Y mod 5, X)`. -/
def rhoPi (s : List Nat) : List Nat :=
  (List.range 25).map (fun i =>
    let xo := i % 5
    let yo := i / 5
    let xi := (xo + 3 * yo) % 5
    let yi := xo
    rotl64 (lane s xi yi) (rhoOffsets (xi + 5 * yi)))

/-- Keccak χ step (`~a` on a 64-bit lane is `a ^^^ (2^64 - 1)`). -/
def chi (s : List Nat) : List Nat :=
  (List.range 25).map (fun i =>
    let x := i % 5
    let y := i / 5
    lane s x y ^^^ ((lane s (x + 1) y ^^^ (2 ^ 64 - 1)) &&& lane s (x + 2) y))

/-- The 24 round constants of Keccak-f[1600], written in decimal (their
usual hexadecimal forms are 0x0000000000000001, 0x0000000000008082, and so
on; the test-vector theorems below pin them down). -/
def keccakRC : List Nat :=
  [1,
   32898,
   9223372036854808714,
   9223372039002292224,
   32907,
   2147483649,
   9223372039002292353,
   9223372036854808585,
   138,
   136,
   2147516425,
   2147483658,
   2147516555,
   9223372036854775947,
   9223372036854808713,
   9223372036854808579,
   9223372036854808578,
   9223372036854775936,
   32778,
   9223372039002259466,
   9223372039002292353,
   9223372036854808704,
   2147483649,
   9223372039002292232]

/-- One Keccak round: θ, ρ, π, χ, then ι (xor the round constant into
lane (0,0)). -/
def keccakRound (s : List Nat) (rc : Nat) : List Nat :=
  match chi (rhoPi (theta s)) with
  | [] => []
  | a :: rest => (a ^^^ rc) :: rest

/-- The full Keccak-f[1600] permutation (24 rounds). -/
def keccakF (s : List Nat) : List Nat :=
  keccakRC.foldl keccakRound s

/-- Original Keccak `pad10*1` padding with domain byte `0x01` at rate 136
(this is what distinguishes `keccak_256` from NIST SHA3-256, whose domain
byte is `0x06`). -/
def padKeccak (msg : List Nat) : List Nat :=
  let padLen := 136 - msg.length % 136
  if padLen = 1 then msg ++ [0x81]
  else msg ++ [0x01] ++ List.replicate (padLen - 2) 0 ++ [0x80]

/-- NIST SHA3 `pad10*1` padding with domain byte `0x06`, used only to state
that the repository's hash is keccak-256 and not SHA3-256. -/
def padSha3 (msg : List Nat) : List Nat :=
  let padLen := 136 - msg.length % 136
  if padLen = 1 then msg ++ [0x86]
  else msg ++ [0x06] ++ List.replicate (padLen - 2) 0 ++ [0x80]

/-- A little-endian 64-bit lane from up to 8 bytes. -/
def bytesToLane (bs : List Nat) : Nat :=
  bs.foldr (fun b acc => b % 256 + 256 * acc) 0

/-- The 8 little-endian bytes of a 64-bit lane. -/
def laneToBytes (l : Nat) : List Nat :=
  (List.range 8).map (fun i => l / 256 ^ i % 256)

/-- Splits a byte list into consecutive blocks of 136 bytes; structural
recursion on a fuel argument so that the kernel can evaluate it. -/
def toBlocksAux : Nat → List Nat → List (List Nat)
  | _, [] => []
  | 0, _ :: _ => []
  | fuel + 1, b :: rest =>
    ((b :: rest).take 136) :: toBlocksAux fuel ((b :: rest).drop 136)

/-- Splits a byte list into consecutive blocks of 136 bytes (the list
length is always enough fuel, since every step consumes at least one
byte). -/
def toBlocks (l : List Nat) : List (List Nat) :=
  toBlocksAux l.length l

/-- Absorbs one 136-byte block: xor its 17 little-endian lanes into the
state and apply the permutation. -/
def absorbBlock (s block : List Nat) : List Nat :=
  keccakF ((List.range 25).map (fun i =>
    s.getD i 0 ^^^
      (if i < 17 then bytesToLane ((block.drop (8 * i)).take 8) else 0)))

/-- The Keccak sponge at rate 136 with 32-byte output, over a given padded
message. -/
def keccakSponge (padded : List Nat) : List Nat :=
  let s := (toBlocks padded).foldl absorbBlock (List.replicate 25 0)
  ((List.range 4).map (fun i => laneToBytes (s.getD i 0))).flatten

/-- `keccak_256` of `@noble/hashes/sha3`: the hash the repository uses for
proof identifiers. -/
def keccak256 (msg : List Nat) : List Nat :=
  keccakSponge (padKeccak msg)

/-- NIST SHA3-256 (differs from `keccak256` only in the padding domain
byte); present only to settle the "keccak-256, NOT SHA3-256" clause. -/
def sha3_256 (msg : List Nat) : List Nat :=
  keccakSponge (padSha3 msg)

/-! ## Blob assembler (`buildProofBlob`) -/

/-- `buildProofBlob` of `src/services/NoirService.ts` (lines 202-227).

The source computes `totalFields = proof.length / 32 + publicInputs.length
/ 32` with exact floating-point division (division by 32 and the sum of the
two quotients are exact in binary floating point), then truncates through
`DataView.setUint32`; the written header is therefore the big-endian u32
`⌊(N + M) / 32⌋ % 2 ^ 32`, which for 32-aligned inputs is `N/32 + M/32`.
Returns the blob `header ‖ publicInputs ‖ proof` together with the
`proofId`, the lowercase hex rendering of the keccak-256 digest of the
whole blob. -/
def buildProofBlob (publicInputsBytes proofBytes : List Nat) :
    List Nat × String :=
  let totalFields := (publicInputsBytes.length + proofBytes.length) / 32
  let proofBlob := u32be totalFields ++ publicInputsBytes ++ proofBytes
  (proofBlob, bytesToHex (keccak256 proofBlob))

/-! ## Circuit ABI model and the field encoder -/

/-- The element type of an array ABI parameter, as read by the source
(`p.type.type.kind` and `p.type.type.width`); `width = 0` models an absent
`width` (both are falsy in the `elementType === 'integer' && width` test
of `encodeField`). -/
structure ElemType where
  kind : String
  width : Nat
deriving DecidableEq, Repr

/-- The `p.type` field of an ABI parameter.  Dispatch in the source is on
the string `p.type.kind`; the constructors carry exactly the fields the
corresponding branch reads.  `other tag` stands for a parameter whose
`kind` string is `tag`, matched by none of the three recognized branches.
As in `ElemType`, an integer `width` of `0` models an absent width. -/
inductive AbiKind where
  | integer (width : Nat)
  | field
  | array (elem : ElemType) (length : Nat)
  | other (tag : String)
deriving DecidableEq, Repr

/-- One entry of `circuit.abi.parameters`. -/
structure Param where
  name : String
  visibility : String
  type : AbiKind
deriving DecidableEq, Repr

/-- A supplied circuit input value: a scalar or a flat array of scalars
(the shapes the code paths under study consume). -/
inductive InputValue where
  | scalar (v : Nat)
  | arr (vs : List Nat)
deriving DecidableEq, Repr

/-- `inputs[p.name]` on the input record. -/
def lookupInput (inputs : List (String × InputValue)) (n : String) :
    Option InputValue :=
  (inputs.find? (fun kv => kv.1 == n)).map (fun kv => kv.2)

/-- JavaScript `BigInt(value)` on a supplied value: a scalar is itself; an
array is converted through its comma-joined string, so `[]` is `0`, a
one-element array is its element, and anything longer throws.  `none` is a
thrown `TypeError`/`SyntaxError`. -/
def jsBigIntV : InputValue → Option Nat
  | .scalar v => some v
  | .arr [] => some 0
  | .arr [v] => some v
  | .arr _ => none

/-- `BigInt` applied to a possibly-missing input (`BigInt(undefined)`
throws). -/
def jsBigInt : Option InputValue → Option Nat
  | some v => jsBigIntV v
  | none => none

/-- The inner helper `encodeField(value, elementType, width)` of
`encodePublicInputs` (NoirService.ts lines 130-149), after the
`BigInt(value)` conversion.  When `elementType === 'integer'` and `width`
is truthy the loop writes `width / 8` bytes — a fractional bound, so the
loop body runs `⌈width / 8⌉` times; otherwise it writes all 32 bytes. -/
def encodeField (value : Nat) (elementType : String) (width : Nat) :
    List Nat :=
  if elementType == "integer" && width != 0 then
    byteWrite value ((width + 7) / 8)
  else
    byteWrite value 32

/-- Errors thrown by the encoder, one constructor per `throw` site of
`encodePublicInputs` plus the implicit `BigInt` conversion failure.  The
spec's `ShapeMismatch` taxon covers the first two. -/
inductive EncodeError where
  | expectedArray (name : String)
  | arrayLengthMismatch (name : String) (expected got : Nat)
  | unsupportedType (name : String) (tag : String)
  | badValue (name : String)
deriving DecidableEq, Repr

/-- Whether an error belongs to the spec's `ShapeMismatch` taxon. -/
def EncodeError.isShapeMismatch : EncodeError → Bool
  | .expectedArray _ => true
  | .arrayLengthMismatch _ _ _ => true
  | _ => false

instance {ε α : Type} [DecidableEq ε] [DecidableEq α] :
    DecidableEq (Except ε α) := fun x y =>
  match x, y with
  | .ok a, .ok b => decidable_of_iff (a = b) (by simp)
  | .error e, .error f => decidable_of_iff (e = f) (by simp)
  | .ok _, .error _ => isFalse (by simp)
  | .error _, .ok _ => isFalse (by simp)

/-- The encoding of one public parameter: the body of the
`publicParams.forEach` loop of `encodePublicInputs` (lines 152-183).
Arrays must be supplied an array of exactly the declared length and expand
element by element; integer and field scalars produce one field each; any
other kind tag throws. -/
def encodeParam (inputs : List (String × InputValue)) (p : Param) :
    Except EncodeError (List Nat) :=
  let inputValue := lookupInput inputs p.name
  match p.type with
  | .array elem len =>
    match inputValue with
    | some (.arr vs) =>
      if vs.length = len then
        .ok (vs.flatMap (fun e => encodeField e elem.kind elem.width))
      else
        .error (.arrayLengthMismatch p.name len vs.length)
    | _ => .error (.expectedArray p.name)
  | .integer w =>
    match jsBigInt inputValue with
    | some v => .ok (encodeField v "integer" w)
    | none => .error (.badValue p.name)
  | .field =>
    match jsBigInt inputValue with
    | some v => .ok (encodeField v "field" 0)
    | none => .error (.badValue p.name)
  | .other tag => .error (.unsupportedType p.name tag)

/-- Left-to-right encoding of a parameter list, stopping at the first
thrown error and concatenating the produced 32-byte fields, as the
`forEach` / `Uint8Array.set` combination does. -/
def encodeParams (inputs : List (String × InputValue)) :
    List Param → Except EncodeError (List Nat)
  | [] => .ok []
  | p :: ps =>
    match encodeParam inputs p with
    | .error e => .error e
    | .ok bs =>
      match encodeParams inputs ps with
      | .error e => .error e
      | .ok rest => .ok (bs ++ rest)

/-- `encodePublicInputs(circuit, inputs)` of `src/services/NoirService.ts`
(lines 121-193): filter the ABI parameters to the public ones, encode each
in declared order, concatenate. -/
def encodePublicInputs (params : List Param)
    (inputs : List (String × InputValue)) : Except EncodeError (List Nat) :=
  encodeParams inputs (params.filter (fun p => p.visibility == "public"))

/-! ## The frontend variant's inlined encoder (`src/unnamed/part_002`) -/

/-- The encoding of one public parameter as inlined in the frontend
variant's `NoirService.generateProof` (part_002, lines 93-136).  A missing
input throws already at the `inputValue.toString(16)` debug log.  Only the
`integer` and `field` kinds are dispatched; for every other kind (arrays
included) the freshly allocated all-zero 32-byte field is pushed
unchanged, with no error.  The integer branch uses `p.type.width` without
a truthiness check, so an absent width (`0` here, `undefined`/NaN in JS)
runs the byte loop zero times and leaves the field all zero. -/
def frontendEncodeParam (inputs : List (String × InputValue)) (p : Param) :
    Except EncodeError (List Nat) :=
  match lookupInput inputs p.name with
  | none => .error (.badValue p.name)
  | some inputValue =>
    match p.type with
    | .integer w =>
      match jsBigIntV inputValue with
      | some v => .ok (byteWrite v ((w + 7) / 8))
      | none => .error (.badValue p.name)
    | .field =>
      match jsBigIntV inputValue with
      | some v => .ok (byteWrite v 32)
      | none => .error (.badValue p.name)
    | _ => .ok (List.replicate 32 0)

/-- Left-to-right encoding of a parameter list in the frontend variant,
stopping at the first thrown error and concatenating the produced 32-byte
fields. -/
def frontendEncodeParams (inputs : List (String × InputValue)) :
    List Param → Except EncodeError (List Nat)
  | [] => .ok []
  | p :: ps =>
    match frontendEncodeParam inputs p with
    | .error e => .error e
    | .ok bs =>
      match frontendEncodeParams inputs ps with
      | .error e => .error e
      | .ok rest => .ok (bs ++ rest)

/-- The full inlined public-input encoding of the frontend variant's
`generateProof`: public filter, per-parameter encoding, concatenation. -/
def frontendEncodePublicInputs (params : List Param)
    (inputs : List (String × InputValue)) : Except EncodeError (List Nat) :=
  frontendEncodeParams inputs (params.filter (fun p => p.visibility == "public"))

/-! ## Auxiliary specification-side definitions -/

/-- The lowercase hexadecimal alphabet. -/
def hexLowerChars : List Char :=
  String.toList "0123456789abcdef"

/-- A public parameter on which the two encoder variants take the same
code path: scalar `integer` with a nonzero declared width or scalar
`field`, with a supplied scalar value (non-public parameters are skipped
by both variants and unconstrained). -/
def scalarParamOk (inputs : List (String × InputValue)) (p : Param) : Bool :=
  p.visibility != "public" ||
    (match p.type, lookupInput inputs p.name with
     | .integer w, some (.scalar _) => w != 0
     | .field, some (.scalar _) => true
     | _, _ => false)

/-- The ABI of the spec's concrete scenario (§8): one public `[Field; 81]`
parameter and one public width-32 integer parameter. -/
def c4Abi : List Param :=
  [⟨"puzzle", "public", .array ⟨"field", 0⟩ 81⟩,
   ⟨"score", "public", .integer 32⟩]

/-- The inputs of the concrete scenario: 81 zeros and the value 5. -/
def c4Inputs : List (String × InputValue) :=
  [("puzzle", .arr (List.replicate 81 0)), ("score", .scalar 5)]

/-- The expected encoded public inputs of the concrete scenario:
81 × 32 zero bytes followed by the 32-byte big-endian encoding of 5. -/
def c4PubBytes : List Nat :=
  List.replicate 2592 0 ++ List.replicate 28 0 ++ [0, 0, 0, 5]

/-- The expected full blob of the concrete scenario: header `00 00 00 52`
(82 fields) followed by the encoded public inputs. -/
def c4Blob : List Nat :=
  [0, 0, 0, 0x52] ++ c4PubBytes

/-! ## Generic lemmas about the byte-level helpers -/

theorem byteWrite_zero (n : Nat) : byteWrite 0 n = List.replicate 32 0 := by
  simp [byteWrite]

theorem div_pow_mod_of_lt (v i n : Nat) (h : i < n) :
    v % 256 ^ n / 256 ^ i % 256 = v / 256 ^ i % 256 := by
  have L : ∀ a : Nat, a / 256 ^ i % 256 = a % (256 ^ i * 256) / 256 ^ i :=
    fun a => (Nat.mod_mul_right_div_self a (256 ^ i) 256).symm
  rw [L (v % 256 ^ n), L v, Nat.mod_mod_of_dvd]
  calc (256 : Nat) ^ i * 256 = 256 ^ (i + 1) := by rw [pow_succ]
    _ ∣ 256 ^ n := pow_dvd_pow 256 h

theorem byteWrite_mod (v n : Nat) :
    byteWrite (v % 256 ^ n) n = byteWrite v n := by
  unfold byteWrite
  apply List.map_congr_left
  intro j hj
  simp only [List.mem_range] at hj
  by_cases hle : 32 - n ≤ j
  · simp only [hle, if_true]
    exact div_pow_mod_of_lt v (31 - j) n (by omega)
  · simp [hle]

theorem byteWrite_split (v n : Nat) (hn : n ≤ 32) :
    byteWrite v n = List.replicate (32 - n) 0 ++ beBytes v n := by
  apply List.ext_getElem
  · simp [byteWrite, beBytes]
    omega
  · intro i h1 h2
    simp only [byteWrite, List.getElem_map, List.getElem_range]
    simp only [byteWrite, List.length_map, List.length_range] at h1
    by_cases hi : i < 32 - n
    · rw [List.getElem_append_left (by simpa using hi)]
      simp only [List.getElem_replicate]
      rw [if_neg (by omega)]
    · rw [List.getElem_append_right (by simpa using hi)]
      simp only [beBytes, List.getElem_map, List.getElem_range,
        List.length_replicate]
      rw [if_pos (by omega)]
      have he : 31 - i = n - 1 - (i - (32 - n)) := by omega
      rw [he]

theorem beBytes_succ (v n : Nat) :
    beBytes v (n + 1) = (v / 256 ^ n % 256) :: beBytes v n := by
  unfold beBytes
  rw [List.range_succ_eq_map]
  simp only [List.map_cons, List.map_map]
  congr 1
  apply List.map_congr_left
  intro i _
  have he : n - (i + 1) = n - 1 - i := by omega
  simp [he]

theorem beDecode_foldl (v n a : Nat) :
    (beBytes v n).foldl (fun x b => x * 256 + b) a = a * 256 ^ n + v % 256 ^ n := by
  induction n generalizing a with
  | zero => simp [beBytes, beDecode, Nat.mod_one]
  | succ n ih =>
    rw [beBytes_succ, List.foldl_cons, ih]
    have hmul : v % (256 ^ n * 256) = v % 256 ^ n + 256 ^ n * (v / 256 ^ n % 256) :=
      Nat.mod_mul
    rw [pow_succ, hmul]
    ring

theorem beDecode_beBytes (v n : Nat) :
    beDecode (beBytes v n) = v % 256 ^ n := by
  have := beDecode_foldl v n 0
  simpa [beDecode] using this

theorem hexDigit_mem : ∀ n < 16, hexDigit n ∈ hexLowerChars := by decide

theorem bytesToHex_chars (bs : List Nat) :
    ∀ c ∈ (bytesToHex bs).toList, c ∈ hexLowerChars := by
  intro c hc
  have hc2 : c ∈ bs.flatMap byteToHexChars := hc
  rw [List.mem_flatMap] at hc2
  obtain ⟨b, _, hcb⟩ := hc2
  simp only [byteToHexChars, List.mem_cons, List.mem_singleton] at hcb
  rcases hcb with rfl | rfl | h
  · exact hexDigit_mem _ (Nat.mod_lt _ (by omega))
  · exact hexDigit_mem _ (Nat.mod_lt _ (by omega))
  · cases h

theorem bytesToHex_length (bs : List Nat) :
    (bytesToHex bs).length = 2 * bs.length := by
  show (bs.flatMap byteToHexChars).length = 2 * bs.length
  induction bs with
  | nil => rfl
  | cons b t ih =>
    simp only [List.flatMap_cons, List.length_append, List.length_cons, ih,
      byteToHexChars, List.length_nil]
    omega

theorem keccak256_length (m : List Nat) : (keccak256 m).length = 32 := by
  have h4 : List.range 4 = [0, 1, 2, 3] := rfl
  simp [keccak256, keccakSponge, h4, laneToBytes]

/-! ## Lemmas about the encoders -/

theorem encodeParams_singleton (inputs : List (String × InputValue))
    (p : Param) : encodeParams inputs [p] = encodeParam inputs p := by
  cases h : encodeParam inputs p <;> simp [encodeParams, h]

theorem encodePublicInputs_singleton (p : Param) (hp : p.visibility = "public")
    (inputs : List (String × InputValue)) :
    encodePublicInputs [p] inputs = encodeParam inputs p := by
  simp [encodePublicInputs, List.filter, hp, encodeParams_singleton]

theorem lookupInput_single (name : String) (v : InputValue) :
    lookupInput [(name, v)] name = some v := by
  simp [lookupInput]

theorem encodeParam_integer (inputs : List (String × InputValue))
    (name : String) (w v : Nat)
    (hl : lookupInput inputs name = some (.scalar v)) :
    encodeParam inputs ⟨name, "public", .integer w⟩
      = .ok (encodeField v "integer" w) := by
  simp [encodeParam, hl, jsBigInt, jsBigIntV]

theorem encodeParam_field (inputs : List (String × InputValue))
    (name : String) (v : Nat)
    (hl : lookupInput inputs name = some (.scalar v)) :
    encodeParam inputs ⟨name, "public", .field⟩
      = .ok (encodeField v "field" 0) := by
  simp [encodeParam, hl, jsBigInt, jsBigIntV]

theorem encodeField_integer (v w : Nat) (hw : w ≠ 0) :
    encodeField v "integer" w = byteWrite v ((w + 7) / 8) := by
  simp [encodeField, hw]

theorem encodeField_field (v : Nat) :
    encodeField v "field" 0 = byteWrite v 32 := rfl

theorem encodeParams_append (inputs : List (String × InputValue))
    (l1 l2 : List Param) :
    encodeParams inputs (l1 ++ l2) =
      match encodeParams inputs l1 with
      | .error e => .error e
      | .ok a =>
        match encodeParams inputs l2 with
        | .error e => .error e
        | .ok b => .ok (a ++ b) := by
  induction l1 with
  | nil =>
    cases h2 : encodeParams inputs l2 <;> simp [encodeParams, h2]
  | cons p ps ih =>
    cases hp : encodeParam inputs p <;>
      cases hps : encodeParams inputs ps <;>
        cases h2 : encodeParams inputs l2 <;>
          simp_all [encodeParams, List.append_assoc]

theorem encodeParams_ok_of_mem (inputs : List (String × InputValue))
    {p : Param} {l : List Param} {out : List Nat} (hmem : p ∈ l)
    (hok : encodeParams inputs l = .ok out) :
    ∃ bs, encodeParam inputs p = .ok bs := by
  induction l generalizing out with
  | nil => cases hmem
  | cons q qs ih =>
    simp only [encodeParams] at hok
    cases hq : encodeParam inputs q with
    | error e => rw [hq] at hok; cases hok
    | ok bs =>
      rw [hq] at hok
      cases hqs : encodeParams inputs qs with
      | error e => rw [hqs] at hok; cases hok
      | ok rest =>
        rcases List.mem_cons.mp hmem with rfl | hmem2
        · exact ⟨bs, hq⟩
        · exact ih hmem2 hqs

theorem flatMap_encodeField_zero (n : Nat) :
    (List.replicate n 0).flatMap (fun e => encodeField e "field" 0)
      = List.replicate (32 * n) 0 := by
  induction n with
  | zero => rfl
  | succ n ih =>
    rw [List.replicate_succ, List.flatMap_cons, ih]
    rw [encodeField_field, byteWrite_zero, ← List.replicate_add]
    congr 1
    omega

/-! ## Validation of the keccak-256 embedding on published test vectors -/

set_option maxRecDepth 100000 in
theorem keccak256_empty_vector :
    bytesToHex (keccak256 [])
      = "c5d2460186f7233c927e7db2dcc703c0e500b653ca82273b7bfad8045d85a470" := by
  decide

set_option maxRecDepth 100000 in
theorem keccak256_abc_vector :
    bytesToHex (keccak256 [97, 98, 99])
      = "4e03657aea45a94fc7d47ba826c8d667c0d1e6e33a64a036ec44f58fa12d6c45" := by
  decide

set_option maxRecDepth 100000 in
theorem sha3_256_empty_vector :
    bytesToHex (sha3_256 [])
      = "a7ffc6f8bf1ed76651c14756a061d662f580ff4de43b49fa82d80a4b80f8434a" := by
  decide

set_option maxRecDepth 100000 in
theorem keccak256_ne_sha3_256 : keccak256 ≠ sha3_256 := by
  intro h
  have h0 : keccak256 [] ≠ sha3_256 [] := by decide
  exact h0 (congrFun h [])

/-! ## Claim theorems -/

/-- Claim C1: for every 32-aligned `publicInputs` (N bytes) and `proof`
(M bytes) whose total field count fits in an unsigned 32-bit header,
`buildProofBlob` returns a blob of length `4 + N + M` whose first 4 bytes
decode big-endian to `(N + M) / 32` and whose remaining bytes are
`publicInputs ++ proof`. -/
theorem buildProofBlob_header_layout (pubs prf : List Nat)
    (hN : 32 ∣ pubs.length) (hM : 32 ∣ prf.length)
    (hfit : (pubs.length + prf.length) / 32 < 2 ^ 32) :
    ((buildProofBlob pubs prf).1).length = 4 + pubs.length + prf.length
    ∧ beDecode (((buildProofBlob pubs prf).1).take 4)
        = (pubs.length + prf.length) / 32
    ∧ ((buildProofBlob pubs prf).1).drop 4 = pubs ++ prf := by
  refine ⟨?_, ?_, ?_⟩
  · simp [buildProofBlob, u32be, List.length_append]
    omega
  · simp only [buildProofBlob, u32be, List.cons_append, List.nil_append,
      List.take_succ_cons, List.take_zero, beDecode, List.foldl_cons,
      List.foldl_nil]
    omega
  · simp [buildProofBlob, u32be, List.cons_append]

/-- Witness for C1 at concrete aligned inputs: 32 public-input bytes and
64 proof bytes give a 100-byte blob whose header decodes to 3. -/
theorem buildProofBlob_header_layout_witness :
    beDecode (((buildProofBlob (List.replicate 32 0)
        (List.replicate 64 7)).1).take 4) = 3
    ∧ ((buildProofBlob (List.replicate 32 0)
        (List.replicate 64 7)).1).length = 100 := by
  have h := buildProofBlob_header_layout (List.replicate 32 0)
    (List.replicate 64 7) (by decide) (by decide) (by decide)
  exact ⟨by simpa using h.2.1, by simpa using h.1⟩

/-- Helper for C2: the single-integer-parameter encoding, for any nonzero
byte-aligned width of at most 32 bytes. -/
theorem encode_integer_layout_aux (name : String) (w v : Nat)
    (h8 : 8 ∣ w) (h0 : w ≠ 0) (h32 : w / 8 ≤ 32) (hv : v < 2 ^ w) :
    encodePublicInputs [⟨name, "public", .integer w⟩] [(name, .scalar v)]
      = .ok (List.replicate (32 - w / 8) 0 ++ beBytes v (w / 8))
    ∧ beDecode (beBytes v (w / 8)) = v := by
  have h2 : (2 : Nat) ^ w = 256 ^ (w / 8) := by
    rw [show (256 : Nat) = 2 ^ 8 from rfl, ← pow_mul, Nat.mul_div_cancel' h8]
  have hn : (w + 7) / 8 = w / 8 := by omega
  constructor
  · rw [encodePublicInputs_singleton _ rfl,
      encodeParam_integer _ _ _ _ (lookupInput_single name (.scalar v)),
      encodeField_integer _ _ h0, hn, byteWrite_split _ _ h32]
  · rw [beDecode_beBytes, ← h2, Nat.mod_eq_of_lt hv]

/-- Claim C2: a public `Integer` parameter of width 8, 16, 32, 64 or 128
bits whose supplied value fits the width encodes as a 32-byte field whose
high-order `32 - width/8` bytes are zero and whose low `width/8` bytes are
the value, right-aligned big-endian (the value is recoverable from those
low bytes). -/
theorem encodePublicInputs_integer_layout (name : String) (w v : Nat)
    (hw : w ∈ ([8, 16, 32, 64, 128] : List Nat)) (hv : v < 2 ^ w) :
    encodePublicInputs [⟨name, "public", .integer w⟩] [(name, .scalar v)]
      = .ok (List.replicate (32 - w / 8) 0 ++ beBytes v (w / 8))
    ∧ beDecode (beBytes v (w / 8)) = v := by
  fin_cases hw <;>
    exact encode_integer_layout_aux _ _ _ (by norm_num) (by norm_num)
      (by norm_num) hv

/-- Witness for C2: encoding `0x1234` at width 16 yields 30 zero bytes
followed by `0x12 0x34`. -/
theorem encodePublicInputs_integer_layout_witness :
    encodePublicInputs [⟨"x", "public", .integer 16⟩] [("x", .scalar 0x1234)]
      = .ok (List.replicate 30 0 ++ [0x12, 0x34]) := by
  have h := (encodePublicInputs_integer_layout "x" 16 0x1234
    (by decide) (by decide)).1
  rw [h]
  decide

/-- Claim C3: the `proofId` returned by `buildProofBlob` is the hex
rendering of the keccak-256 digest of exactly the full blob: 64
characters, all lowercase hexadecimal digits, no `0x` prefix; and the
digest function is keccak-256, not NIST SHA3-256. -/
theorem buildProofBlob_proofId_spec (pubs prf : List Nat) :
    (buildProofBlob pubs prf).2
        = bytesToHex (keccak256 ((buildProofBlob pubs prf).1))
    ∧ ((buildProofBlob pubs prf).2).length = 64
    ∧ (∀ c ∈ ((buildProofBlob pubs prf).2).toList, c ∈ hexLowerChars)
    ∧ ((buildProofBlob pubs prf).2).toList.take 2 ≠ ['0', 'x']
    ∧ keccak256 ≠ sha3_256 := by
  refine ⟨rfl, ?_, ?_, ?_, keccak256_ne_sha3_256⟩
  · rw [show (buildProofBlob pubs prf).2
        = bytesToHex (keccak256 ((buildProofBlob pubs prf).1)) from rfl,
      bytesToHex_length, keccak256_length]
  · exact bytesToHex_chars _
  · intro h
    have hx : 'x' ∈ ((buildProofBlob pubs prf).2).toList := by
      apply List.take_subset 2
      rw [h]
      simp
    have hmem := bytesToHex_chars (keccak256 ((buildProofBlob pubs prf).1)) 'x' hx
    exact (by decide : 'x' ∉ hexLowerChars) hmem

/-- Claim C5: a public `Integer` value that exceeds its declared
byte-aligned width does not make the encoder fail; the encoded field is
that of the value reduced modulo `2 ^ width`, and a `Field` value is
likewise reduced modulo `2 ^ 256`. -/
theorem encodePublicInputs_truncates (name : String) (w v : Nat)
    (h8 : 8 ∣ w) (h0 : w ≠ 0) :
    encodePublicInputs [⟨name, "public", .integer w⟩] [(name, .scalar v)]
      = .ok (encodeField (v % 2 ^ w) "integer" w)
    ∧ encodePublicInputs [⟨name, "public", .field⟩] [(name, .scalar v)]
      = .ok (encodeField (v % 2 ^ 256) "field" 0) := by
  have h2 : (2 : Nat) ^ w = 256 ^ (w / 8) := by
    rw [show (256 : Nat) = 2 ^ 8 from rfl, ← pow_mul, Nat.mul_div_cancel' h8]
  have hn : (w + 7) / 8 = w / 8 := by omega
  constructor
  · rw [encodePublicInputs_singleton _ rfl,
      encodeParam_integer _ _ _ _ (lookupInput_single name (.scalar v))]
    congr 1
    rw [encodeField_integer _ _ h0, encodeField_integer _ _ h0, hn, h2]
    exact (byteWrite_mod v (w / 8)).symm
  · rw [encodePublicInputs_singleton _ rfl,
      encodeParam_field _ _ _ (lookupInput_single name (.scalar v))]
    congr 1
    rw [encodeField_field, encodeField_field,
      show (2 : Nat) ^ 256 = 256 ^ 32 by norm_num]
    exact (byteWrite_mod v 32).symm

/-- Witness for C5: value 256 at width 8 silently encodes as the same
all-zero 32-byte field as value 0. -/
theorem encodePublicInputs_truncates_witness :
    encodePublicInputs [⟨"n", "public", .integer 8⟩] [("n", .scalar 256)]
      = .ok (encodeField (256 % 2 ^ 8) "integer" 8)
    ∧ encodeField (256 % 2 ^ 8) "integer" 8 = List.replicate 32 0
    ∧ encodePublicInputs [⟨"n", "public", .integer 8⟩] [("n", .scalar 0)]
      = .ok (List.replicate 32 0) :=
  ⟨(encodePublicInputs_truncates "n" 8 256 (by norm_num) (by norm_num)).1,
    by decide, by decide⟩

/-- Claim C7: a public parameter whose kind tag is none of `array`,
`integer`, `field` makes the encoder fail with an `UnsupportedType` error:
no byte output is ever produced from a parameter list containing it, and
in isolation the error is precisely `unsupportedType`. -/
theorem encodePublicInputs_unsupported (params : List Param)
    (inputs : List (String × InputValue)) (name tag : String)
    (_htag : tag ∉ (["array", "integer", "field"] : List String))
    (hmem : (⟨name, "public", .other tag⟩ : Param) ∈ params) :
    (∀ out, encodePublicInputs params inputs ≠ .ok out)
    ∧ encodePublicInputs [⟨name, "public", .other tag⟩] inputs
        = .error (.unsupportedType name tag) := by
  constructor
  · intro out hok
    simp only [encodePublicInputs] at hok
    have hmemf : (⟨name, "public", .other tag⟩ : Param)
        ∈ params.filter (fun p => p.visibility == "public") := by
      rw [List.mem_filter]
      exact ⟨hmem, by simp⟩
    obtain ⟨bs, hbs⟩ := encodeParams_ok_of_mem inputs hmemf hok
    simp [encodeParam] at hbs
  · rw [encodePublicInputs_singleton _ rfl]
    rfl

/-- Witness for C7 at the concrete tag `tuple`. -/
theorem encodePublicInputs_unsupported_witness :
    encodePublicInputs [⟨"p", "public", .other "tuple"⟩] []
      = .error (.unsupportedType "p" "tuple")
    ∧ ∀ out, encodePublicInputs [⟨"p", "public", .other "tuple"⟩] [] ≠ .ok out := by
  have h := encodePublicInputs_unsupported
    [⟨"p", "public", .other "tuple"⟩] [] "p" "tuple"
    (by decide) (by simp)
  exact ⟨h.2, h.1⟩

/-- Claim C8 (evidence of the code's actual behavior): `buildProofBlob`
performs no alignment check; on a 33-byte (unaligned) public-input buffer
and an empty proof it silently returns a 37-byte blob whose header is the
truncated field count 1. -/
theorem buildProofBlob_unaligned_silent :
    (buildProofBlob (List.replicate 33 0) []).1
      = [0, 0, 0, 1] ++ List.replicate 33 0
    ∧ ¬ 32 ∣ (List.replicate 33 (0 : Nat)).length := by
  constructor
  · decide
  · decide

/-! ## More structural lemmas for the order-sensitivity and equivalence claims -/

theorem encodeParams_append_ok (inputs : List (String × InputValue))
    {l1 l2 : List Param} {a b : List Nat}
    (h1 : encodeParams inputs l1 = .ok a) (h2 : encodeParams inputs l2 = .ok b) :
    encodeParams inputs (l1 ++ l2) = .ok (a ++ b) := by
  rw [encodeParams_append, h1, h2]

theorem encodeParams_cons_ok (inputs : List (String × InputValue))
    {p : Param} {l : List Param} {x r : List Nat}
    (hx : encodeParam inputs p = .ok x) (hl : encodeParams inputs l = .ok r) :
    encodeParams inputs (p :: l) = .ok (x ++ r) := by
  simp [encodeParams, hx, hl]

theorem encodeParams_append_inv (inputs : List (String × InputValue))
    {l1 l2 : List Param} {out : List Nat}
    (h : encodeParams inputs (l1 ++ l2) = .ok out) :
    ∃ a b, encodeParams inputs l1 = .ok a
      ∧ encodeParams inputs l2 = .ok b ∧ out = a ++ b := by
  rw [encodeParams_append] at h
  cases h1 : encodeParams inputs l1 with
  | error e => rw [h1] at h; cases h
  | ok a =>
    rw [h1] at h
    cases h2 : encodeParams inputs l2 with
    | error e => rw [h2] at h; cases h
    | ok b =>
      rw [h2] at h
      refine ⟨a, b, rfl, rfl, ?_⟩
      cases h
      rfl

theorem encodeParams_cons_inv (inputs : List (String × InputValue))
    {p : Param} {l : List Param} {out : List Nat}
    (h : encodeParams inputs (p :: l) = .ok out) :
    ∃ x r, encodeParam inputs p = .ok x
      ∧ encodeParams inputs l = .ok r ∧ out = x ++ r := by
  simp only [encodeParams] at h
  cases hx : encodeParam inputs p with
  | error e => rw [hx] at h; cases h
  | ok x =>
    rw [hx] at h
    cases hl : encodeParams inputs l with
    | error e => rw [hl] at h; cases h
    | ok r =>
      rw [hl] at h
      refine ⟨x, r, rfl, rfl, ?_⟩
      cases h
      rfl

/-- Claim C6: a public `Array{elem, length}` parameter fails with a
shape-mismatch error — producing no bytes — whenever the supplied value is
missing, not a sequence, or a sequence of the wrong length; supplied a
sequence of exactly the declared length, each element is encoded
individually and appended in sequence order. -/
theorem encodePublicInputs_array_shape (name : String) (elem : ElemType)
    (len : Nat) (inputs : List (String × InputValue)) :
    (∀ v, lookupInput inputs name = some v → (∀ vs, v ≠ .arr vs) →
      ∃ e, encodePublicInputs [⟨name, "public", .array elem len⟩] inputs
        = .error e ∧ e.isShapeMismatch = true)
    ∧ (lookupInput inputs name = none →
      ∃ e, encodePublicInputs [⟨name, "public", .array elem len⟩] inputs
        = .error e ∧ e.isShapeMismatch = true)
    ∧ (∀ vs, lookupInput inputs name = some (.arr vs) → vs.length ≠ len →
      ∃ e, encodePublicInputs [⟨name, "public", .array elem len⟩] inputs
        = .error e ∧ e.isShapeMismatch = true)
    ∧ (∀ vs, lookupInput inputs name = some (.arr vs) → vs.length = len →
      encodePublicInputs [⟨name, "public", .array elem len⟩] inputs
        = .ok (vs.flatMap (fun x => encodeField x elem.kind elem.width))) := by
  rw [encodePublicInputs_singleton _ rfl]
  refine ⟨?_, ?_, ?_, ?_⟩
  · intro v hl hnot
    cases v with
    | scalar x =>
      exact ⟨.expectedArray name, by simp [encodeParam, hl], rfl⟩
    | arr vs => exact absurd rfl (hnot vs)
  · intro hl
    exact ⟨.expectedArray name, by simp [encodeParam, hl], rfl⟩
  · intro vs hl hne
    exact ⟨.arrayLengthMismatch name len vs.length,
      by simp [encodeParam, hl, hne], rfl⟩
  · intro vs hl hlen
    simp [encodeParam, hl, hlen]

/-- Witness for C6: a 2-element array parameter succeeds element by
element; a scalar value and a 1-element value both fail with a
shape-mismatch error. -/
theorem encodePublicInputs_array_shape_witness :
    encodePublicInputs [⟨"a", "public", .array ⟨"field", 0⟩ 2⟩]
      [("a", .arr [7, 9])]
      = .ok (encodeField 7 "field" 0 ++ encodeField 9 "field" 0)
    ∧ (∃ e, encodePublicInputs [⟨"a", "public", .array ⟨"field", 0⟩ 2⟩]
        [("a", .scalar 7)] = .error e ∧ e.isShapeMismatch = true)
    ∧ (∃ e, encodePublicInputs [⟨"a", "public", .array ⟨"field", 0⟩ 2⟩]
        [("a", .arr [7])] = .error e ∧ e.isShapeMismatch = true) := by
  refine ⟨?_, ?_, ?_⟩
  · have h := (encodePublicInputs_array_shape "a" ⟨"field", 0⟩ 2
      [("a", .arr [7, 9])]).2.2.2 [7, 9] (by decide) (by decide)
    rw [h]
    decide
  · exact (encodePublicInputs_array_shape "a" ⟨"field", 0⟩ 2
      [("a", .scalar 7)]).1 (.scalar 7) (by decide)
      (by intro vs h; cases h)
  · exact (encodePublicInputs_array_shape "a" ⟨"field", 0⟩ 2
      [("a", .arr [7])]).2.2.1 [7] (by decide) (by decide)

/-- Counterexample to claim C9 as stated: two public parameters whose
supplied values differ (256 for the width-8 integer, 0 for the field)
encode to the same all-zero field under width truncation, so swapping
their declared order leaves the output of `encodePublicInputs`
unchanged. -/
theorem encode_order_counterexample :
    encodePublicInputs [⟨"a", "public", .integer 8⟩, ⟨"b", "public", .field⟩]
      [("a", .scalar 256), ("b", .scalar 0)]
    = encodePublicInputs [⟨"b", "public", .field⟩, ⟨"a", "public", .integer 8⟩]
      [("a", .scalar 256), ("b", .scalar 0)]
    ∧ (256 : Nat) ≠ 0 := by
  exact ⟨by decide, by decide⟩

/-- Claim C9 (amended): swapping two public parameters of an ABI (with
inputs unchanged) changes the output of `encodePublicInputs` whenever the
two parameters' *encoded field sequences* differ and have equal length
(supplied values that differ need not encode differently, because of
width truncation). -/
theorem encodePublicInputs_order_sensitive
    (pre mid post : List Param) (p q : Param)
    (inputs : List (String × InputValue)) (P Q out : List Nat)
    (hp : p.visibility = "public") (hq : q.visibility = "public")
    (hP : encodeParam inputs p = .ok P) (hQ : encodeParam inputs q = .ok Q)
    (hlen : P.length = Q.length) (hne : P ≠ Q)
    (hok : encodePublicInputs (pre ++ p :: mid ++ q :: post) inputs
      = .ok out) :
    encodePublicInputs (pre ++ p :: mid ++ q :: post) inputs
      ≠ encodePublicInputs (pre ++ q :: mid ++ p :: post) inputs := by
  have hfp : (p.visibility == "public") = true := by simp [hp]
  have hfq : (q.visibility == "public") = true := by simp [hq]
  have hf1 : (pre ++ p :: mid ++ q :: post).filter
      (fun x => x.visibility == "public")
      = pre.filter (fun x => x.visibility == "public")
        ++ p :: (mid.filter (fun x => x.visibility == "public")
        ++ q :: post.filter (fun x => x.visibility == "public")) := by
    simp [List.filter_append, List.filter_cons, hfp, hfq]
  have hf2 : (pre ++ q :: mid ++ p :: post).filter
      (fun x => x.visibility == "public")
      = pre.filter (fun x => x.visibility == "public")
        ++ q :: (mid.filter (fun x => x.visibility == "public")
        ++ p :: post.filter (fun x => x.visibility == "public")) := by
    simp [List.filter_append, List.filter_cons, hfp, hfq]
  simp only [encodePublicInputs, hf1, hf2] at hok ⊢
  obtain ⟨A, r1, hA, hr1, hout⟩ := encodeParams_append_inv inputs hok
  obtain ⟨X, r2, hX, hr2, hre1⟩ := encodeParams_cons_inv inputs hr1
  obtain ⟨B, r3, hB, hr3, hre2⟩ := encodeParams_append_inv inputs hr2
  obtain ⟨Y, C, hY, hC, hre3⟩ := encodeParams_cons_inv inputs hr3
  have hlhs : encodeParams inputs
      (pre.filter (fun x => x.visibility == "public")
        ++ p :: (mid.filter (fun x => x.visibility == "public")
        ++ q :: post.filter (fun x => x.visibility == "public")))
      = .ok (A ++ (P ++ (B ++ (Q ++ C)))) :=
    encodeParams_append_ok inputs hA
      (encodeParams_cons_ok inputs hP
        (encodeParams_append_ok inputs hB
          (encodeParams_cons_ok inputs hQ hC)))
  have hrhs : encodeParams inputs
      (pre.filter (fun x => x.visibility == "public")
        ++ q :: (mid.filter (fun x => x.visibility == "public")
        ++ p :: post.filter (fun x => x.visibility == "public")))
      = .ok (A ++ (Q ++ (B ++ (P ++ C)))) :=
    encodeParams_append_ok inputs hA
      (encodeParams_cons_ok inputs hQ
        (encodeParams_append_ok inputs hB
          (encodeParams_cons_ok inputs hP hC)))
  rw [hlhs, hrhs]
  intro heq
  have hlists : A ++ (P ++ (B ++ (Q ++ C))) = A ++ (Q ++ (B ++ (P ++ C))) := by
    simpa using heq
  have h2 : P ++ (B ++ (Q ++ C)) = Q ++ (B ++ (P ++ C)) :=
    List.append_cancel_left hlists
  have h3 := congrArg (List.take P.length) h2
  rw [List.take_left] at h3
  rw [hlen, List.take_left] at h3
  exact hne h3

/-- Witness for C9 (amended) at a concrete two-parameter ABI: a width-8
integer with value 1 and a field with value 2 swap to different outputs. -/
theorem encodePublicInputs_order_sensitive_witness :
    encodePublicInputs [⟨"a", "public", .integer 8⟩, ⟨"b", "public", .field⟩]
      [("a", .scalar 1), ("b", .scalar 2)]
    ≠ encodePublicInputs [⟨"b", "public", .field⟩, ⟨"a", "public", .integer 8⟩]
      [("a", .scalar 1), ("b", .scalar 2)] := by
  have h := encodePublicInputs_order_sensitive [] [] []
    ⟨"a", "public", .integer 8⟩ ⟨"b", "public", .field⟩
    [("a", .scalar 1), ("b", .scalar 2)]
    (List.replicate 31 0 ++ [1]) (List.replicate 31 0 ++ [2])
    ((List.replicate 31 0 ++ [1]) ++ (List.replicate 31 0 ++ [2]))
    rfl rfl (by decide) (by decide) (by decide) (by decide) (by decide)
  simpa using h

/-- Helper for C10: on a public scalar parameter on which `scalarParamOk`
holds, the frontend variant and the service encoder produce the same
field bytes. -/
theorem frontendParam_eq (inputs : List (String × InputValue))
    (nm vis : String) (ty : AbiKind) (hpub : vis = "public")
    (h : scalarParamOk inputs ⟨nm, vis, ty⟩ = true) :
    frontendEncodeParam inputs ⟨nm, vis, ty⟩
      = encodeParam inputs ⟨nm, vis, ty⟩ := by
  subst hpub
  unfold scalarParamOk at h
  simp only [bne_self_eq_false, Bool.false_or] at h
  cases ty with
  | integer w =>
    cases hl : lookupInput inputs nm with
    | none => rw [hl] at h; simp at h
    | some v =>
      rw [hl] at h
      cases v with
      | scalar x =>
        have hw : w ≠ 0 := by simpa using h
        simp [frontendEncodeParam, encodeParam, hl, jsBigInt, jsBigIntV,
          encodeField_integer _ _ hw]
      | arr vs => simp at h
  | field =>
    cases hl : lookupInput inputs nm with
    | none => rw [hl] at h; simp at h
    | some v =>
      rw [hl] at h
      cases v with
      | scalar x =>
        simp [frontendEncodeParam, encodeParam, hl, jsBigInt, jsBigIntV,
          encodeField_field]
      | arr vs => simp at h
  | array e len =>
    cases hl : lookupInput inputs nm with
    | none => rw [hl] at h; simp at h
    | some v => rw [hl] at h; simp at h
  | other tag =>
    cases hl : lookupInput inputs nm with
    | none => rw [hl] at h; simp at h
    | some v => rw [hl] at h; simp at h

/-- Helper for C10: pointwise-equal per-parameter encoders give equal
parameter-list encoders. -/
theorem frontendEncodeParams_eq (inputs : List (String × InputValue))
    (l : List Param)
    (h : ∀ p ∈ l, frontendEncodeParam inputs p = encodeParam inputs p) :
    frontendEncodeParams inputs l = encodeParams inputs l := by
  induction l with
  | nil => rfl
  | cons p ps ih =>
    have hp := h p (List.mem_cons_self p ps)
    have hps := ih (fun q hq => h q (List.mem_cons_of_mem p hq))
    simp only [frontendEncodeParams, encodeParams, hp, hps]

/-- Claim C10 (amended): the frontend variant's inlined encoding agrees
byte-for-byte with `encodePublicInputs` on every ABI whose public
parameters are scalars — `integer` of nonzero declared width or `field` —
supplied with scalar values; the two variants diverge on `array` and
unrecognized kinds (see the counterexample). -/
theorem frontend_encoding_agrees (params : List Param)
    (inputs : List (String × InputValue))
    (h : params.all (scalarParamOk inputs) = true) :
    frontendEncodePublicInputs params inputs
      = encodePublicInputs params inputs := by
  unfold frontendEncodePublicInputs encodePublicInputs
  apply frontendEncodeParams_eq
  intro p hpf
  rw [List.mem_filter] at hpf
  obtain ⟨hmem, hpubb⟩ := hpf
  have hok : scalarParamOk inputs p = true := List.all_eq_true.mp h p hmem
  obtain ⟨nm, vis, ty⟩ := p
  exact frontendParam_eq inputs nm vis ty (by simpa using hpubb) hok

/-- Witness for C10 (amended) on a concrete scalar-only ABI (one public
width-32 integer, one private field, one public field). -/
theorem frontend_encoding_agrees_witness :
    frontendEncodePublicInputs
      [⟨"a", "public", .integer 32⟩, ⟨"s", "private", .field⟩,
       ⟨"b", "public", .field⟩]
      [("a", .scalar 5), ("s", .scalar 1), ("b", .scalar 9)]
    = encodePublicInputs
      [⟨"a", "public", .integer 32⟩, ⟨"s", "private", .field⟩,
       ⟨"b", "public", .field⟩]
      [("a", .scalar 5), ("s", .scalar 1), ("b", .scalar 9)]
    ∧ encodePublicInputs
      [⟨"a", "public", .integer 32⟩, ⟨"s", "private", .field⟩,
       ⟨"b", "public", .field⟩]
      [("a", .scalar 5), ("s", .scalar 1), ("b", .scalar 9)]
      = .ok ((List.replicate 28 0 ++ [0, 0, 0, 5])
          ++ (List.replicate 31 0 ++ [9])) := by
  constructor
  · exact frontend_encoding_agrees _ _ (by decide)
  · decide

/-- Counterexample to claim C10 as stated: on an ABI with one public
`[Field; 1]` array parameter supplied `[5]`, the frontend variant emits a
single all-zero 32-byte field while `encodePublicInputs` encodes the
element value 5 — the outputs differ. -/
theorem frontend_encoding_counterexample :
    frontendEncodePublicInputs
      [⟨"puzzle", "public", .array ⟨"field", 0⟩ 1⟩] [("puzzle", .arr [5])]
    ≠ encodePublicInputs
      [⟨"puzzle", "public", .array ⟨"field", 0⟩ 1⟩] [("puzzle", .arr [5])]
    := by decide

/-- Helper for C4: the concrete scenario's public inputs encode to
81 × 32 zero bytes followed by the 32-byte encoding of 5. -/
theorem c4_encodePublicInputs :
    encodePublicInputs c4Abi c4Inputs = .ok c4PubBytes := by
  have hl1 : lookupInput c4Inputs "puzzle"
      = some (.arr (List.replicate 81 0)) := rfl
  have h1 : encodeParam c4Inputs ⟨"puzzle", "public", .array ⟨"field", 0⟩ 81⟩
      = .ok (List.replicate 2592 0) := by
    simp only [encodeParam, hl1]
    rw [if_pos (by simp)]
    rw [flatMap_encodeField_zero]
  have hl2 : lookupInput c4Inputs "score" = some (.scalar 5) := rfl
  have h2 : encodeParam c4Inputs ⟨"score", "public", .integer 32⟩
      = .ok (List.replicate 28 0 ++ [0, 0, 0, 5]) := by
    rw [encodeParam_integer _ _ _ _ hl2, encodeField_integer _ _ (by norm_num)]
    decide
  have hnil : encodeParams c4Inputs ([] : List Param) = .ok [] := rfl
  have hsplit : encodePublicInputs c4Abi c4Inputs
      = encodeParams c4Inputs [⟨"puzzle", "public", .array ⟨"field", 0⟩ 81⟩,
          ⟨"score", "public", .integer 32⟩] := rfl
  rw [hsplit,
    encodeParams_cons_ok c4Inputs h1 (encodeParams_cons_ok c4Inputs h2 hnil)]
  simp only [c4PubBytes, List.append_nil, List.append_assoc]

/-- Helper for C4: the encoded public inputs are 2624 bytes. -/
theorem c4PubBytes_length : c4PubBytes.length = 2624 := by
  simp only [c4PubBytes, List.length_append, List.length_replicate,
    List.length_cons, List.length_nil]

/-- Helper for C4: the assembled blob is exactly `c4Blob`. -/
theorem c4_blob_eq : (buildProofBlob c4PubBytes []).1 = c4Blob := by
  show u32be ((c4PubBytes.length + ([] : List Nat).length) / 32)
      ++ c4PubBytes ++ [] = c4Blob
  have harg : (c4PubBytes.length + ([] : List Nat).length) / 32 = 82 := by
    rw [c4PubBytes_length]
    norm_num
  rw [harg, show u32be 82 = [0, 0, 0, 0x52] by decide, List.append_nil]
  rfl

/-- Helper for C4: the assembled blob is 2628 bytes long. -/
theorem c4Blob_length : c4Blob.length = 2628 := by
  show ([0, 0, 0, 0x52] ++ c4PubBytes).length = 2628
  rw [List.length_append, c4PubBytes_length]
  rfl

/-- Counterexample to claim C4 as stated: the bytes the claim enumerates —
4-byte header, 2592 zero bytes, 32-byte encoding of 5 — total 2628, not
2624, so the proofId is the keccak-256 of 2628 blob bytes. -/
theorem c4_blob_counterexample :
    encodePublicInputs c4Abi c4Inputs = .ok c4PubBytes
    ∧ ((buildProofBlob c4PubBytes []).1).length = 2628
    ∧ (2628 : Nat) ≠ 2624 := by
  refine ⟨c4_encodePublicInputs, ?_, by decide⟩
  rw [c4_blob_eq, c4Blob_length]

/-- Claim C4 (amended): for the concrete scenario — one public `[Field; 81]`
parameter, all zeros, one public width-32 integer parameter with value 5,
0-length proof — `buildProofBlob` yields header `00 00 00 52`, then 81 × 32
zero bytes, then the 32-byte encoding of 5, then nothing; the blob is 2628
bytes (header included) and the proofId is the keccak-256 of those 2628
bytes. -/
theorem c4_concrete_blob :
    encodePublicInputs c4Abi c4Inputs = .ok c4PubBytes
    ∧ (buildProofBlob c4PubBytes []).1 = c4Blob
    ∧ c4Blob = [0, 0, 0, 0x52] ++ List.replicate 2592 0
        ++ List.replicate 28 0 ++ [0, 0, 0, 5]
    ∧ c4Blob.length = 2628
    ∧ (buildProofBlob c4PubBytes []).2 = bytesToHex (keccak256 c4Blob) := by
  refine ⟨c4_encodePublicInputs, c4_blob_eq, ?_, c4Blob_length, ?_⟩
  · simp only [c4Blob, c4PubBytes, List.append_assoc]
  · rw [show (buildProofBlob c4PubBytes []).2
        = bytesToHex (keccak256 ((buildProofBlob c4PubBytes []).1)) from rfl,
      c4_blob_eq]

/-- Witness for C3 at a concrete input: the proofId of the empty-input
blob has exactly 64 characters, and its first character is a lowercase
hex digit. -/
theorem buildProofBlob_proofId_spec_witness :
    ((buildProofBlob [] []).2).length = 64
    ∧ ((buildProofBlob [] []).2).toList.take 2 ≠ ['0', 'x'] :=
  ⟨(buildProofBlob_proofId_spec [] []).2.1,
   (buildProofBlob_proofId_spec [] []).2.2.2.1⟩
